import Mathlib

/-!
# Verification of the TeleDrive worker relay

Shallow embedding of the worker services in `worker-templates/render-service.py`
and `worker-templates/render-service-chunked.py`: the chunked-upload assembler,
the credential caches, the completion state machine, the Range parser and the
download streaming teardown. Python dicts are modelled as association lists with
first-match lookup and in-place overwrite; byte strings as `List Nat`; machine
behaviour that can raise is modelled with `Except`/`Option`.
-/

set_option autoImplicit false

namespace TeleDrive

/-! ## Python dict model -/

/-- Lookup in a Python-dict model (first matching key). -/
def dget {K V : Type} [DecidableEq K] (k : K) : List (K × V) → Option V
  | [] => none
  | (k', v) :: rest => if k' = k then some v else dget k rest

/-- `d[k] = v` on a Python-dict model: overwrite in place, append if absent. -/
def dput {K V : Type} [DecidableEq K] (k : K) (v : V) : List (K × V) → List (K × V)
  | [] => [(k, v)]
  | (k', v') :: rest => if k' = k then (k', v) :: rest else (k', v') :: dput k v rest

theorem dget_dput_self {K V : Type} [DecidableEq K] (k : K) (v : V) (d : List (K × V)) :
    dget k (dput k v d) = some v := by
  induction d with
  | nil => simp [dget, dput]
  | cons p rest ih =>
    obtain ⟨k', v'⟩ := p
    by_cases h : k' = k
    · simp [dget, dput, h]
    · simp [dget, dput, h, ih]

theorem dget_dput_ne {K V : Type} [DecidableEq K] (k k' : K) (v : V) (d : List (K × V))
    (h : k ≠ k') : dget k (dput k' v d) = dget k d := by
  have h' : ¬ k' = k := fun e => h e.symm
  induction d with
  | nil => simp [dget, dput, h']
  | cons p rest ih =>
    obtain ⟨k₀, v₀⟩ := p
    by_cases h0 : k₀ = k'
    · subst h0
      simp [dget, dput, h']
    · simp [dget, dput, h0, ih]

theorem dput_dput_self {K V : Type} [DecidableEq K] (k : K) (v w : V) (d : List (K × V)) :
    dput k w (dput k v d) = dput k w d := by
  induction d with
  | nil => simp [dput]
  | cons p rest ih =>
    obtain ⟨k₀, v₀⟩ := p
    by_cases h : k₀ = k
    · simp [dput, h]
    · simp [dput, h, ih]

theorem length_dput_of_absent {K V : Type} [DecidableEq K] (k : K) (v : V) (d : List (K × V))
    (h : dget k d = none) : (dput k v d).length = d.length + 1 := by
  induction d with
  | nil => simp [dput]
  | cons p rest ih =>
    obtain ⟨k₀, v₀⟩ := p
    by_cases h0 : k₀ = k
    · simp [dget, h0] at h
    · simp [dget, h0] at h
      simp [dput, h0, ih h]

theorem dget_eq_some_iff_mem {K V : Type} [DecidableEq K] (k : K) (v : V) (l : List (K × V))
    (hnd : (l.map Prod.fst).Nodup) : dget k l = some v ↔ (k, v) ∈ l := by
  induction l with
  | nil => simp [dget]
  | cons p rest ih =>
    obtain ⟨k₀, v₀⟩ := p
    simp only [List.map_cons, List.nodup_cons] at hnd
    by_cases h0 : k₀ = k
    · subst h0
      constructor
      · intro h
        have hv : v₀ = v := by simpa [dget] using h
        exact List.mem_cons.mpr (Or.inl (by rw [← hv]))
      · intro hm
        rcases List.mem_cons.mp hm with h | h
        · rw [Prod.mk.injEq] at h
          simp [dget, h.2]
        · exact absurd (List.mem_map_of_mem Prod.fst h) hnd.1
    · simp only [dget, if_neg h0, List.mem_cons, ih hnd.2]
      constructor
      · exact fun h => Or.inr h
      · rintro (h | h)
        · rw [Prod.mk.injEq] at h
          exact absurd h.1.symm h0
        · exact h

theorem dget_eq_none_iff {K V : Type} [DecidableEq K] (k : K) (l : List (K × V)) :
    dget k l = none ↔ k ∉ l.map Prod.fst := by
  induction l with
  | nil => simp [dget]
  | cons p rest ih =>
    obtain ⟨k₀, v₀⟩ := p
    by_cases h0 : k₀ = k
    · simp [dget, h0]
    · simp only [dget, if_neg h0, List.map_cons, List.mem_cons, ih]
      constructor
      · intro h hk
        cases hk with
        | inl e => exact h0 e.symm
        | inr e => exact h e
      · intro h e
        exact h (Or.inr e)

theorem dget_perm {K V : Type} [DecidableEq K] (l l' : List (K × V))
    (hnd : (l.map Prod.fst).Nodup) (hp : l.Perm l') (k : K) : dget k l = dget k l' := by
  have hnd' : (l'.map Prod.fst).Nodup := ((hp.map Prod.fst).nodup_iff).mp hnd
  cases h : dget k l with
  | none =>
    rw [dget_eq_none_iff] at h
    have : k ∉ l'.map Prod.fst := fun hm => h ((hp.map Prod.fst).mem_iff.mpr hm)
    exact ((dget_eq_none_iff k l').mpr this).symm
  | some v =>
    rw [dget_eq_some_iff_mem k v l hnd] at h
    exact ((dget_eq_some_iff_mem k v l' hnd').mpr (hp.mem_iff.mp h)).symm

/-! ## Chunk assembler (`render-service.py`)

`chunk_storage` maps an upload id to a session dict holding `fileName`,
`totalChunks` and a dict `chunks : index → bytes` with `int` keys. -/

/-- A byte string, one `Nat` per byte. -/
abbrev Bytes := List Nat

/-- One entry of `chunk_storage` (`render-service.py:85-90`). -/
structure ChunkSession where
  fileName : String
  totalChunks : Nat
  chunks : List (Int × Bytes)
deriving DecidableEq

abbrev ChunkStorage := List (String × ChunkSession)

/-- Error outcomes of the chunked-upload handlers in `render-service.py`. -/
inductive WorkerError where
  /-- 400 `No chunk provided`. -/
  | noChunk : WorkerError
  /-- 404 `Upload session not found`. -/
  | sessionNotFound : WorkerError
  /-- 400 `Missing chunks. Expected N, got M` — carries only the two counts. -/
  | missingChunks (expected got : Nat) : WorkerError
  /-- Python `KeyError` during reassembly, caught by the handler as a 500. -/
  | keyError (index : Nat) : WorkerError
deriving DecidableEq

/-- Response of `init_upload` on its non-exception path. -/
structure InitResponse where
  success : Bool
  uploadId : String
deriving DecidableEq

/-- `init_upload` (`render-service.py:72-97`): unconditionally assigns
`chunk_storage[upload_id]` to a fresh session — there is no duplicate check. -/
def init_upload (storage : ChunkStorage) (uploadId fileName : String) (totalChunks : Nat) :
    ChunkStorage × InitResponse :=
  (dput uploadId ⟨fileName, totalChunks, []⟩ storage, ⟨true, uploadId⟩)

/-- `upload_chunk` (`render-service.py:99-123`): rejects a missing chunk body (400)
and an unknown session (404); otherwise stores `chunks[chunk_index] = data`
(overwriting) and returns the new received-count. The index is any `int`;
no range check is performed. -/
def upload_chunk (storage : ChunkStorage) (uploadId : String) (chunkIndex : Int)
    (chunk : Option Bytes) : Except WorkerError (ChunkStorage × Nat) :=
  match chunk with
  | none => .error .noChunk
  | some data =>
    match dget uploadId storage with
    | none => .error .sessionNotFound
    | some s =>
      let s' : ChunkSession := { s with chunks := dput chunkIndex data s.chunks }
      .ok (dput uploadId s' storage, s'.chunks.length)

/-- The reassembly loop `[chunks[i] for i in range(n)]`: gathers indices
`0..n-1` in order, failing with a `KeyError` at the first absent index. -/
def gatherChunks (chunks : List (Int × Bytes)) : Nat → Except WorkerError (List Bytes)
  | 0 => .ok []
  | n + 1 =>
    match gatherChunks chunks n with
    | .error e => .error e
    | .ok pre =>
      match dget (n : Int) chunks with
      | some v => .ok (pre ++ [v])
      | none => .error (.keyError n)

/-- The validation and reassembly part of `complete_upload`
(`render-service.py:139-154`): 404 on unknown session, the count gate
`len(chunks) != total_chunks`, then `b''.join([chunks[i] for i in range(n)])`. -/
def complete_upload_assemble (storage : ChunkStorage) (uploadId : String) :
    Except WorkerError Bytes :=
  match dget uploadId storage with
  | none => .error .sessionNotFound
  | some s =>
    if s.chunks.length ≠ s.totalChunks then
      .error (.missingChunks s.totalChunks s.chunks.length)
    else
      (gatherChunks s.chunks s.totalChunks).map List.flatten

/-- The indices in `[0, totalChunks)` that have no stored chunk. -/
def missingIndices (s : ChunkSession) : List Nat :=
  (List.range s.totalChunks).filter (fun i => (dget (i : Int) s.chunks).isNone)

/-- Index-ordered slicing of a file into labelled chunks, labels starting at `k`. -/
def enumChunksFrom (k : Nat) : List Bytes → List (Int × Bytes)
  | [] => []
  | p :: ps => ((k : Int), p) :: enumChunksFrom (k + 1) ps

/-- Index-ordered slicing of a file into labelled chunks `0..N-1`. -/
def enumChunks (pieces : List Bytes) : List (Int × Bytes) :=
  enumChunksFrom 0 pieces

/-- Submit a list of labelled chunks through `upload_chunk`, threading the
storage; an erroring submission leaves the storage unchanged. -/
def applyUploads (storage : ChunkStorage) (uploadId : String) :
    List (Int × Bytes) → ChunkStorage
  | [] => storage
  | (i, data) :: rest =>
    match upload_chunk storage uploadId i (some data) with
    | .ok (st', _) => applyUploads st' uploadId rest
    | .error _ => applyUploads storage uploadId rest

/-- Folding a sequence of dict writes. -/
def foldPut {K V : Type} [DecidableEq K] (d : List (K × V)) : List (K × V) → List (K × V)
  | [] => d
  | (k, v) :: rest => foldPut (dput k v d) rest

theorem dput_of_dget_eq {K V : Type} [DecidableEq K] (k : K) (v : V) (d : List (K × V))
    (h : dget k d = some v) : dput k v d = d := by
  induction d with
  | nil => simp [dget] at h
  | cons p rest ih =>
    obtain ⟨k₀, v₀⟩ := p
    by_cases h0 : k₀ = k
    · simp only [dget, if_pos h0, Option.some_inj] at h
      simp [dput, h0, h]
    · simp only [dget, if_neg h0] at h
      simp [dput, h0, ih h]

theorem dget_foldPut_of_absent {K V : Type} [DecidableEq K] (k : K) (l d : List (K × V))
    (h : k ∉ l.map Prod.fst) : dget k (foldPut d l) = dget k d := by
  induction l generalizing d with
  | nil => rfl
  | cons p rest ih =>
    obtain ⟨k₀, v₀⟩ := p
    simp only [List.map_cons, List.mem_cons, not_or] at h
    rw [foldPut, ih (dput k₀ v₀ d) h.2, dget_dput_ne k k₀ v₀ d h.1]

theorem dget_foldPut_of_mem {K V : Type} [DecidableEq K] (k : K) (v : V) (l d : List (K × V))
    (hnd : (l.map Prod.fst).Nodup) (hm : (k, v) ∈ l) : dget k (foldPut d l) = some v := by
  induction l generalizing d with
  | nil => simp at hm
  | cons p rest ih =>
    obtain ⟨k₀, v₀⟩ := p
    simp only [List.map_cons, List.nodup_cons] at hnd
    rcases List.mem_cons.mp hm with h | h
    · rw [Prod.mk.injEq] at h
      obtain ⟨hk, hv⟩ := h
      subst hk
      subst hv
      rw [foldPut, dget_foldPut_of_absent k rest (dput k v d) hnd.1, dget_dput_self]
    · rw [foldPut]
      exact ih (dput k₀ v₀ d) hnd.2 h

theorem length_foldPut {K V : Type} [DecidableEq K] (l d : List (K × V))
    (hnd : (l.map Prod.fst).Nodup) (habs : ∀ p ∈ l, dget p.1 d = none) :
    (foldPut d l).length = d.length + l.length := by
  induction l generalizing d with
  | nil => rfl
  | cons p rest ih =>
    obtain ⟨k₀, v₀⟩ := p
    simp only [List.map_cons, List.nodup_cons] at hnd
    have hrest : ∀ p ∈ rest, dget p.1 (dput k₀ v₀ d) = none := by
      intro q hq
      have hne : q.1 ≠ k₀ := by
        intro e
        exact hnd.1 (e ▸ List.mem_map_of_mem Prod.fst hq)
      rw [dget_dput_ne q.1 k₀ v₀ d hne]
      exact habs q (List.mem_cons_of_mem _ hq)
    rw [foldPut, ih (dput k₀ v₀ d) hnd.2 hrest,
      length_dput_of_absent k₀ v₀ d (habs (k₀, v₀) (List.mem_cons_self _ _))]
    simp only [List.length_cons]
    omega

theorem lowerBound_keys_enumChunksFrom (k : Nat) (ps : List Bytes) (j : Int)
    (h : j ∈ (enumChunksFrom k ps).map Prod.fst) : (k : Int) ≤ j := by
  induction ps generalizing k with
  | nil => simp [enumChunksFrom] at h
  | cons p rest ih =>
    simp only [enumChunksFrom, List.map_cons, List.mem_cons] at h
    rcases h with h | h
    · omega
    · have := ih (k + 1) h
      omega

theorem nodup_keys_enumChunksFrom (k : Nat) (ps : List Bytes) :
    ((enumChunksFrom k ps).map Prod.fst).Nodup := by
  induction ps generalizing k with
  | nil => simp [enumChunksFrom]
  | cons p rest ih =>
    simp only [enumChunksFrom, List.map_cons, List.nodup_cons]
    refine ⟨fun hm => ?_, ih (k + 1)⟩
    have := lowerBound_keys_enumChunksFrom (k + 1) rest (k : Int) hm
    omega

theorem dget_enumChunksFrom (k i : Nat) (ps : List Bytes) :
    dget ((k + i : Nat) : Int) (enumChunksFrom k ps) = ps.get? i := by
  induction ps generalizing k i with
  | nil => cases i <;> rfl
  | cons p rest ih =>
    cases i with
    | zero =>
      simp [enumChunksFrom, dget]
    | succ j =>
      have hne : ¬ ((k : Nat) : Int) = ((k + (j + 1) : Nat) : Int) := by
        intro e
        omega
      have hcast : ((k + (j + 1) : Nat) : Int) = (((k + 1) + j : Nat) : Int) := by
        omega
      simp only [enumChunksFrom, dget, if_neg hne, List.get?_cons_succ]
      rw [hcast]
      exact ih (k + 1) j

theorem dget_enumChunks (i : Nat) (pieces : List Bytes) :
    dget ((i : Nat) : Int) (enumChunks pieces) = pieces.get? i := by
  have := dget_enumChunksFrom 0 i pieces
  simpa [enumChunks] using this

theorem length_enumChunksFrom (k : Nat) (ps : List Bytes) :
    (enumChunksFrom k ps).length = ps.length := by
  induction ps generalizing k with
  | nil => rfl
  | cons p rest ih =>
    simp [enumChunksFrom, ih (k + 1)]

theorem applyUploads_foldPut (uploadId : String) (l : List (Int × Bytes))
    (storage : ChunkStorage) (s : ChunkSession) (h : dget uploadId storage = some s) :
    applyUploads storage uploadId l
      = dput uploadId { s with chunks := foldPut s.chunks l } storage := by
  induction l generalizing storage s with
  | nil =>
    show storage = dput uploadId { s with chunks := s.chunks } storage
    rw [show ({ s with chunks := s.chunks } : ChunkSession) = s from rfl,
      dput_of_dget_eq uploadId s storage h]
  | cons p rest ih =>
    obtain ⟨i, b⟩ := p
    show applyUploads storage uploadId ((i, b) :: rest) = _
    rw [applyUploads, upload_chunk, h]
    simp only
    rw [ih (dput uploadId { s with chunks := dput i b s.chunks } storage)
      { s with chunks := dput i b s.chunks } (dget_dput_self _ _ _), dput_dput_self]
    rfl

theorem gatherChunks_ok (chunks : List (Int × Bytes)) (pieces : List Bytes) (n : Nat)
    (hn : n ≤ pieces.length)
    (h : ∀ i, i < n → dget ((i : Nat) : Int) chunks = pieces.get? i) :
    gatherChunks chunks n = .ok (pieces.take n) := by
  induction n with
  | zero => simp [gatherChunks]
  | succ m ih =>
    have hm : gatherChunks chunks m = .ok (pieces.take m) :=
      ih (Nat.le_of_succ_le hn) (fun i hi => h i (Nat.lt_succ_of_lt hi))
    have hsome : pieces.get? m = some (pieces.get ⟨m, Nat.lt_of_succ_le hn⟩) :=
      List.get?_eq_get (Nat.lt_of_succ_le hn)
    rw [gatherChunks, hm, h m (Nat.lt_succ_self m), hsome, List.take_succ,
      ← List.get?_eq_getElem?, hsome]
    rfl

theorem gatherChunks_fails (chunks : List (Int × Bytes)) (n i : Nat)
    (hi : i < n) (h : dget ((i : Nat) : Int) chunks = none) :
    ∃ e, gatherChunks chunks n = .error e := by
  induction n with
  | zero => omega
  | succ m ih =>
    by_cases hlt : i < m
    · obtain ⟨e, he⟩ := ih hlt
      exact ⟨e, by rw [gatherChunks, he]⟩
    · have : i = m := by omega
      subst this
      cases hg : gatherChunks chunks i with
      | error e => exact ⟨e, by rw [gatherChunks, hg]⟩
      | ok pre => exact ⟨.keyError i, by rw [gatherChunks, hg, h]⟩

/-- C1: splitting a file into N index-labelled chunks (`enumChunks`), submitting
them through `upload_chunk` in any arrival order, and running the reassembly of
`complete_upload` yields exactly the original byte sequence: assembly
concatenates stored chunks in ascending index order regardless of arrival
order. -/
theorem chunked_upload_reassembly (storage0 : ChunkStorage) (uploadId fileName : String)
    (pieces : List Bytes) (arrivals : List (Int × Bytes))
    (hperm : arrivals.Perm (enumChunks pieces)) :
    complete_upload_assemble
      (applyUploads (init_upload storage0 uploadId fileName pieces.length).1 uploadId arrivals)
      uploadId = .ok pieces.flatten := by
  have hndE : ((enumChunks pieces).map Prod.fst).Nodup := nodup_keys_enumChunksFrom 0 pieces
  have hndA : (arrivals.map Prod.fst).Nodup := ((hperm.map Prod.fst).nodup_iff).mpr hndE
  have h0 : dget uploadId (init_upload storage0 uploadId fileName pieces.length).1
      = some ⟨fileName, pieces.length, []⟩ := dget_dput_self _ _ _
  have happ := applyUploads_foldPut uploadId arrivals _ _ h0
  have h2 : dget uploadId
      (applyUploads (init_upload storage0 uploadId fileName pieces.length).1 uploadId arrivals)
      = some ⟨fileName, pieces.length, foldPut [] arrivals⟩ := by
    rw [happ]
    exact dget_dput_self _ _ _
  have hlenA : arrivals.length = pieces.length := by
    have h1 := hperm.length_eq
    rwa [enumChunks, length_enumChunksFrom] at h1
  have hlen : (foldPut ([] : List (Int × Bytes)) arrivals).length = pieces.length := by
    rw [length_foldPut arrivals [] hndA (fun p _ => rfl)]
    simpa using hlenA
  have hlook : ∀ i, i < pieces.length →
      dget ((i : Nat) : Int) (foldPut ([] : List (Int × Bytes)) arrivals) = pieces.get? i := by
    intro i hi
    have hsome : pieces.get? i = some (pieces.get ⟨i, hi⟩) := List.get?_eq_get hi
    have hE : dget ((i : Nat) : Int) (enumChunks pieces) = some (pieces.get ⟨i, hi⟩) := by
      rw [dget_enumChunks, hsome]
    have hmemA : (((i : Nat) : Int), pieces.get ⟨i, hi⟩) ∈ arrivals :=
      hperm.mem_iff.mpr ((dget_eq_some_iff_mem _ _ _ hndE).mp hE)
    rw [dget_foldPut_of_mem _ _ arrivals [] hndA hmemA, hsome]
  rw [complete_upload_assemble, h2]
  simp only [hlen, ne_eq, not_true_eq_false, if_false, ite_false]
  rw [gatherChunks_ok (foldPut [] arrivals) pieces pieces.length le_rfl hlook,
    List.take_length]
  rfl

/-- Witness for C1 at a concrete two-chunk file submitted in reverse order. -/
theorem chunked_upload_reassembly_witness :
    ([((1 : Int), [3, 4]), ((0 : Int), [1, 2])] : List (Int × Bytes)).Perm
        (enumChunks [[1, 2], [3, 4]])
    ∧ complete_upload_assemble
        (applyUploads (init_upload [] "u" "f.bin" 2).1 "u"
          [((1 : Int), [3, 4]), ((0 : Int), [1, 2])]) "u"
      = .ok [1, 2, 3, 4] :=
  ⟨by decide, chunked_upload_reassembly [] "u" "f.bin" [[1, 2], [3, 4]]
    [((1 : Int), [3, 4]), ((0 : Int), [1, 2])] (by decide)⟩

instance {ε α : Type} [DecidableEq ε] [DecidableEq α] : DecidableEq (Except ε α) := fun x y =>
  match x, y with
  | .ok a, .ok b =>
    if h : a = b then .isTrue (by rw [h]) else .isFalse (fun e => h (Except.ok.inj e))
  | .error a, .error b =>
    if h : a = b then .isTrue (by rw [h]) else .isFalse (fun e => h (Except.error.inj e))
  | .ok _, .error _ => .isFalse (fun e => Except.noConfusion e)
  | .error _, .ok _ => .isFalse (fun e => Except.noConfusion e)

theorem except_map_error {ε α β : Type} (f : α → β) (e : ε) :
    Except.map f (Except.error e) = Except.error e := rfl

/-- C4 counterexample: two sessions with the same expected count and the same
number of stored chunks but different missing-index sets produce the identical
failure value `missingChunks 3 2` — the failure payload carries only the two
counts and cannot list the missing indices. -/
theorem assemble_error_omits_missing_indices :
    complete_upload_assemble
        [("u", (⟨"f", 3, [((0 : Int), [1]), ((1 : Int), [2])]⟩ : ChunkSession))] "u"
      = .error (.missingChunks 3 2)
    ∧ complete_upload_assemble
        [("u", (⟨"f", 3, [((0 : Int), [1]), ((2 : Int), [3])]⟩ : ChunkSession))] "u"
      = .error (.missingChunks 3 2)
    ∧ missingIndices ⟨"f", 3, [((0 : Int), [1]), ((1 : Int), [2])]⟩
      ≠ missingIndices ⟨"f", 3, [((0 : Int), [1]), ((2 : Int), [3])]⟩ := by
  decide

/-- C4 (amended): whenever some index in `[0, totalChunks)` has no stored
chunk, the reassembly of `complete_upload` fails — either at the count gate
(with the expected/got counts) or with a `KeyError` during gathering — and in
particular never returns a (partial) byte sequence. -/
theorem assemble_missing_index_errors (storage : ChunkStorage) (uploadId : String)
    (s : ChunkSession) (h : dget uploadId storage = some s) (i : Nat)
    (hi : i < s.totalChunks) (hmiss : dget ((i : Nat) : Int) s.chunks = none) :
    ∃ e, complete_upload_assemble storage uploadId = .error e := by
  by_cases hlen : s.chunks.length ≠ s.totalChunks
  · exact ⟨.missingChunks s.totalChunks s.chunks.length,
      by simp [complete_upload_assemble, h, hlen]⟩
  · obtain ⟨e, he⟩ := gatherChunks_fails s.chunks s.totalChunks i hi hmiss
    exact ⟨e, by simp [complete_upload_assemble, h, hlen, he, except_map_error]⟩

/-- Witness for the amended C4 at a concrete one-missing-chunk session. -/
theorem assemble_missing_index_errors_witness :
    dget "u" [("u", (⟨"f", 2, [((0 : Int), [7])]⟩ : ChunkSession))]
        = some ⟨"f", 2, [((0 : Int), [7])]⟩
    ∧ 1 < 2
    ∧ dget ((1 : Nat) : Int) ([((0 : Int), [7])] : List (Int × Bytes)) = none
    ∧ ∃ e, complete_upload_assemble
        [("u", (⟨"f", 2, [((0 : Int), [7])]⟩ : ChunkSession))] "u" = .error e :=
  ⟨by decide, by decide, by decide,
    assemble_missing_index_errors [("u", ⟨"f", 2, [((0 : Int), [7])]⟩)] "u"
      ⟨"f", 2, [((0 : Int), [7])]⟩ (by decide) 1 (by decide) (by decide)⟩

/-- C8 counterexample: `init_upload` on an id with an existing session does not
fail — it reports success and replaces the session with a fresh empty one,
destroying the stored chunks, fileName and expectedChunkCount. -/
theorem init_upload_no_duplicate_error :
    (init_upload [("u", (⟨"a.txt", 2, [((0 : Int), [9])]⟩ : ChunkSession))] "u" "b.txt" 3).2
      = ⟨true, "u"⟩
    ∧ dget "u"
        (init_upload [("u", (⟨"a.txt", 2, [((0 : Int), [9])]⟩ : ChunkSession))] "u" "b.txt" 3).1
      = some ⟨"b.txt", 3, []⟩
    ∧ (⟨"b.txt", 3, []⟩ : ChunkSession) ≠ ⟨"a.txt", 2, [((0 : Int), [9])]⟩ := by
  decide

/-- C8 (amended): `init_upload` always succeeds, unconditionally overwriting
any existing session for the same id with a fresh empty one. -/
theorem init_upload_always_succeeds (storage : ChunkStorage) (uploadId fileName : String)
    (totalChunks : Nat) :
    (init_upload storage uploadId fileName totalChunks).2.success = true
    ∧ dget uploadId (init_upload storage uploadId fileName totalChunks).1
        = some ⟨fileName, totalChunks, []⟩ :=
  ⟨rfl, dget_dput_self _ _ _⟩

/-- C10: the gate for reassembly is the distinct-index count alone.
`upload_chunk` accepts any integer index (negative or out of range) and it
counts toward the total; `complete_upload` proceeds to reassembly exactly when
the stored-chunk count equals `totalChunks`, and otherwise fails at the count
gate. -/
theorem assembler_gate_is_count_alone (storage : ChunkStorage) (uploadId : String)
    (s : ChunkSession) (h : dget uploadId storage = some s) :
    (∀ (i : Int) (data : Bytes), upload_chunk storage uploadId i (some data)
        = .ok (dput uploadId { s with chunks := dput i data s.chunks } storage,
            (dput i data s.chunks).length))
    ∧ (s.chunks.length = s.totalChunks →
        complete_upload_assemble storage uploadId
          = (gatherChunks s.chunks s.totalChunks).map List.flatten)
    ∧ (s.chunks.length ≠ s.totalChunks →
        complete_upload_assemble storage uploadId
          = .error (.missingChunks s.totalChunks s.chunks.length)) := by
  refine ⟨fun i data => ?_, fun he => ?_, fun hne => ?_⟩
  · simp [upload_chunk, h]
  · simp [complete_upload_assemble, h, he]
  · simp [complete_upload_assemble, h, hne]

/-- A session whose two stored indices are out of range (`-1` and `5`). -/
def gateSessionW : ChunkSession := ⟨"f", 2, [((-1 : Int), [7]), ((5 : Int), [8])]⟩

def gateStorageW : ChunkStorage := [("u", gateSessionW)]

/-- Witness for C10: with two stored chunks at rogue indices `-1` and `5` and
`expectedChunkCount = 2`, the gate passes and reassembly runs. -/
theorem assembler_gate_is_count_alone_witness :
    dget "u" gateStorageW = some gateSessionW
    ∧ complete_upload_assemble gateStorageW "u"
        = (gatherChunks gateSessionW.chunks 2).map List.flatten :=
  ⟨by decide,
    (assembler_gate_is_count_alone gateStorageW "u" gateSessionW (by decide)).2.1 (by decide)⟩

/-! ## Credential caches

Two distinct implementations exist: a single-slot cache in `render-service.py`
(`get_credentials`, lines 25-59) with a stale-on-error fallback, and a keyed
cache in `render-service-chunked.py` (`get_credentials`, lines 63-89) that
returns `None` on fetch failure. Payloads are opaque (`Nat`). -/

/-- The global `credentials_cache` dict of `render-service.py:19-23`. -/
structure CredCacheRS where
  data : Option Nat
  timestamp : Option Nat
  user_id : Option String
deriving DecidableEq

/-- Outcome of the outbound credentials fetch: a 200 with a payload, or a
failure (network exception or a non-200 status, both of which raise inside the
`try` of `render-service.py:37-53`). -/
inductive FetchResult where
  | success (payload : Nat) : FetchResult
  | failure : FetchResult
deriving DecidableEq

/-- The fetch-and-fallback tail of `get_credentials` (`render-service.py:36-59`):
on success cache and return; on failure return the cached value if one exists
for the same user, else re-raise. The `Bool` records whether the outbound
fetch was performed. -/
def rs_fetch (cache : CredCacheRS) (user_id : String) (now : Nat) (fetch : FetchResult) :
    Except Unit (Nat × CredCacheRS × Bool) :=
  match fetch with
  | .success p => .ok (p, ⟨some p, some now, some user_id⟩, true)
  | .failure =>
    match cache.data, cache.user_id with
    | some d, some u => if u = user_id then .ok (d, cache, true) else .error ()
    | _, _ => .error ()

/-- `get_credentials` of `render-service.py:25-59`: serve from cache while the
entry is for the same user and younger than `CACHE_DURATION` (3600 s),
otherwise fetch with stale-on-error fallback. -/
def get_credentials (cache : CredCacheRS) (user_id : String) (now : Nat)
    (fetch : FetchResult) : Except Unit (Nat × CredCacheRS × Bool) :=
  match cache.data, cache.user_id, cache.timestamp with
  | some d, some u, some t =>
    if u = user_id ∧ now - t < 3600 then .ok (d, cache, false)
    else rs_fetch cache user_id now fetch
  | _, _, _ => rs_fetch cache user_id now fetch

/-- The fetch tail of the chunked service's `get_credentials`
(`render-service-chunked.py:72-89`): 200 caches and returns the payload;
a non-200 or an exception returns `None` — no fallback to stale entries. -/
def chunked_fetch (cache : List (String × Nat × Nat)) (cache_key : String) (now : Nat)
    (fetch : FetchResult) : Option Nat × List (String × Nat × Nat) :=
  match fetch with
  | .success p => (some p, dput cache_key (p, now) cache)
  | .failure => (none, cache)

/-- `get_credentials` of `render-service-chunked.py:63-89`: keyed cache with a
1-hour TTL; a fresh entry is returned without fetching, anything else goes to
the fetch (whose failure yields `None`, even when a stale entry exists). -/
def get_credentials_chunked (cache : List (String × Nat × Nat)) (cache_key : String)
    (now : Nat) (fetch : FetchResult) : Option Nat × List (String × Nat × Nat) :=
  match dget cache_key cache with
  | some (d, t) =>
    if now - t < 3600 then (some d, cache)
    else chunked_fetch cache cache_key now fetch
  | none => chunked_fetch cache cache_key now fetch

/-- C3 counterexample: in the chunked service, a stale cached entry (age 7200 s
for key `"k"`) together with a fetch failure yields `none` — the stale payload
`42` is not served, contradicting the claimed stale-on-error fallback. -/
theorem chunked_cache_no_stale_fallback :
    (get_credentials_chunked [("k", (42, 0))] "k" 7200 .failure).1 = none
    ∧ (none : Option Nat) ≠ some 42 := by
  decide

/-- C3 (amended, for `render-service.py`): a fresh same-user entry is returned
without fetching; on fetch failure a cached entry for the same user (any age)
is returned instead of the error; the error propagates exactly when the fetch
fails and no cached value for that user exists. -/
theorem credential_cache_stale_fallback (cache : CredCacheRS) (user_id : String)
    (now : Nat) (fetch : FetchResult) :
    (∀ d u t, cache.data = some d → cache.user_id = some u → cache.timestamp = some t →
        u = user_id → now - t < 3600 →
        get_credentials cache user_id now fetch = .ok (d, cache, false))
    ∧ (∀ d, fetch = .failure → cache.data = some d → cache.user_id = some user_id →
        ∃ b, get_credentials cache user_id now fetch = .ok (d, cache, b))
    ∧ (get_credentials cache user_id now fetch = .error () ↔
        (fetch = .failure ∧ ¬ (cache.data.isSome ∧ cache.user_id = some user_id))) := by
  obtain ⟨cd, cts, cuid⟩ := cache
  refine ⟨?_, ?_, ?_⟩
  · intro d u t hd hu ht hue hage
    cases hd
    cases hu
    cases ht
    subst hue
    simp [get_credentials, hage]
  · intro d hf hd hu
    subst hf
    cases hd
    cases hu
    cases cts with
    | none => exact ⟨true, by simp [get_credentials, rs_fetch]⟩
    | some t =>
      by_cases hage : now - t < 3600
      · exact ⟨false, by simp [get_credentials, hage]⟩
      · exact ⟨true, by simp [get_credentials, hage, rs_fetch]⟩
  · cases fetch with
    | success p =>
      constructor
      · intro he
        exfalso
        revert he
        cases cd <;> cases cuid <;> cases cts <;>
          simp only [get_credentials, rs_fetch] <;>
          (try split) <;> simp
      · rintro ⟨hf, -⟩
        cases hf
    | failure =>
      cases cd with
      | none => cases cuid <;> cases cts <;> simp [get_credentials, rs_fetch]
      | some d =>
        cases cuid with
        | none => cases cts <;> simp [get_credentials, rs_fetch]
        | some u =>
          by_cases hue : u = user_id
          · subst hue
            cases cts with
            | none => simp [get_credentials, rs_fetch]
            | some t =>
              by_cases hage : now - t < 3600 <;>
                simp [get_credentials, rs_fetch, hage]
          · cases cts with
            | none => simp [get_credentials, rs_fetch, hue]
            | some t =>
              by_cases hage : now - t < 3600 <;>
                simp [get_credentials, rs_fetch, hage, hue]

/-- Witness for the amended C3: a fresh entry is served without fetching, and a
stale entry (age 7200 s) is served on fetch failure. -/
theorem credential_cache_stale_fallback_witness :
    get_credentials ⟨some 42, some 0, some "u"⟩ "u" 100 .failure
      = .ok (42, ⟨some 42, some 0, some "u"⟩, false)
    ∧ ∃ b, get_credentials ⟨some 42, some 0, some "u"⟩ "u" 7200 .failure
      = .ok (42, ⟨some 42, some 0, some "u"⟩, b) :=
  ⟨(credential_cache_stale_fallback ⟨some 42, some 0, some "u"⟩ "u" 100 .failure).1
      42 "u" 0 rfl rfl rfl rfl (by decide),
    (credential_cache_stale_fallback ⟨some 42, some 0, some "u"⟩ "u" 7200 .failure).2.1
      42 rfl rfl rfl⟩

/-! ## Upload sessions of the chunked service (`render-service-chunked.py`)

`upload_progress` maps an upload id to a dict with status, file metadata, a
credentials snapshot, progress percent, the two remote handles and the last
error. -/

/-- Credential payload fields used by the two upload strategies; `none` models
a missing or falsy field. -/
structure Credentials where
  bot_token : Option String
  channel_id : Option Int
  telegram_session : Option String
  telegram_api_id : Option Nat
  telegram_api_hash : Option String
deriving DecidableEq

/-- The four values `progress['status']` takes. -/
inductive UploadStatus where
  | uploaded : UploadStatus
  | uploading : UploadStatus
  | completed : UploadStatus
  | failed : UploadStatus
deriving DecidableEq

/-- One entry of `upload_progress` (`render-service-chunked.py:125-135`). -/
structure ProgressEntry where
  status : UploadStatus
  file_path : String
  file_size : Nat
  file_name : String
  credentials : Credentials
  telegram_progress : Nat
  message_id : Option Nat
  file_id : Option String
  error : Option String
deriving DecidableEq

/-- Response of the `/complete-upload` handler of the chunked service. -/
inductive CompleteResult where
  /-- 400 `Invalid upload ID`. -/
  | invalidId : CompleteResult
  /-- 400 `Upload already in progress`. -/
  | alreadyInProgress : CompleteResult
  /-- `status: completed` with the stored handles, returned without dispatch. -/
  | alreadyCompleted (messageId : Option Nat) (fileId : Option String) : CompleteResult
  /-- 202-style `status: uploading`; the background thread was started. -/
  | startedBackground (uploadId : String) : CompleteResult
deriving DecidableEq

/-- `complete_upload` (`render-service-chunked.py:151-197`). Returns the
response, the updated `upload_progress` map, and whether a background dispatch
thread was started. An absent or falsy (empty) id is a 400. -/
def chunked_complete_upload (progressMap : List (String × ProgressEntry))
    (uploadId : Option String) :
    CompleteResult × List (String × ProgressEntry) × Bool :=
  match uploadId with
  | none => (.invalidId, progressMap, false)
  | some uid =>
    if uid = "" then (.invalidId, progressMap, false)
    else
      match dget uid progressMap with
      | none => (.invalidId, progressMap, false)
      | some e =>
        if e.status = .uploading then (.alreadyInProgress, progressMap, false)
        else if e.status = .completed then
          (.alreadyCompleted e.message_id e.file_id, progressMap, false)
        else
          (.startedBackground uid,
            dput uid { e with status := .uploading, telegram_progress := 0 } progressMap,
            true)

/-- C5: completing an already-`completed` session is idempotent — it returns
the stored `(messageId, fileId)` pair, leaves the map unchanged and starts no
background dispatch, and a second call returns the identical result. -/
theorem complete_upload_idempotent_when_completed
    (m : List (String × ProgressEntry)) (uid : String) (e : ProgressEntry)
    (hne : uid ≠ "") (h : dget uid m = some e) (hc : e.status = .completed) :
    chunked_complete_upload m (some uid)
      = (.alreadyCompleted e.message_id e.file_id, m, false)
    ∧ chunked_complete_upload (chunked_complete_upload m (some uid)).2.1 (some uid)
      = (.alreadyCompleted e.message_id e.file_id, m, false) := by
  have h1 : chunked_complete_upload m (some uid)
      = (.alreadyCompleted e.message_id e.file_id, m, false) := by
    simp [chunked_complete_upload, hne, h, hc]
  exact ⟨h1, by rw [h1, h1]⟩

/-- A concrete completed progress entry. -/
def completedEntryW : ProgressEntry :=
  { status := .completed, file_path := "/tmp/u", file_size := 10, file_name := "f",
    credentials := ⟨none, none, none, none, none⟩, telegram_progress := 100,
    message_id := some 7, file_id := some "fid", error := none }

/-- Witness for C5 at a concrete completed entry. -/
theorem complete_upload_idempotent_witness :
    chunked_complete_upload [("u", completedEntryW)] (some "u")
      = (.alreadyCompleted (some 7) (some "fid"), [("u", completedEntryW)], false) :=
  (complete_upload_idempotent_when_completed [("u", completedEntryW)] "u" completedEntryW
    (by decide) (by decide) rfl).1

/-! ## Background dispatch to Telegram (`render-service-chunked.py:200-392`) -/

/-- `BOT_API_SIZE_LIMIT` (`render-service-chunked.py:40`). -/
def BOT_API_SIZE_LIMIT : Nat := 50 * 1024 * 1024

/-- Decoded Bot-API `sendDocument` response body
(`render-service-chunked.py:257-268`): the `ok` flag, the message id and the
optional per-media `file_id` fields; `photo` is a list whose first element's
`file_id` may itself be absent. -/
structure TgBotResult where
  ok : Bool
  message_id : Nat
  document : Option String
  video : Option String
  audio : Option String
  photo : List (Option String)
deriving DecidableEq

/-- The `or`-chain probing the Bot-API result for a `file_id`
(`render-service-chunked.py:264-268`). -/
def bot_extract_file_id (r : TgBotResult) : Option String :=
  match r.document with
  | some f => some f
  | none =>
    match r.video with
    | some f => some f
    | none =>
      match r.audio with
      | some f => some f
      | none =>
        match r.photo with
        | [] => none
        | p :: _ => p

/-- A Telethon message as probed by `upload_to_telegram_client`
(`render-service-chunked.py:373-382`): its id and the optional media ids. -/
structure TgMessage where
  id : Nat
  document : Option Nat
  video : Option Nat
  audio : Option Nat
  photo : Option Nat
deriving DecidableEq

/-- The `if/elif` chain of `upload_to_telegram_client`
(`render-service-chunked.py:374-382`). -/
def client_extract_file_id (m : TgMessage) : Option Nat :=
  match m.document with
  | some i => some i
  | none =>
    match m.video with
    | some i => some i
    | none =>
      match m.audio with
      | some i => some i
      | none => m.photo

/-- Result record of `upload_to_telegram_client`
(`render-service-chunked.py:384-387`): `file_id` is `str(file_id)` when a media
id was found and `None` otherwise — the function returns normally either way. -/
def upload_to_telegram_client (m : TgMessage) : Nat × Option String :=
  (m.id, (client_extract_file_id m).map toString)

/-- `upload_with_bot_api` (`render-service-chunked.py:232-284`), with the HTTP
interaction abstracted as `resp`: missing `bot_token`/`channel_id`, a non-`ok`
response, a failed send and a missing `file_id` all raise; success commits the
completed entry with both handles. -/
def upload_with_bot_api (e : ProgressEntry) (resp : Except String TgBotResult) :
    Except String ProgressEntry :=
  match e.credentials.bot_token, e.credentials.channel_id with
  | some _, some _ =>
    match resp with
    | .error msg => .error msg
    | .ok r =>
      if r.ok = false then .error "Telegram API error"
      else
        match bot_extract_file_id r with
        | none => .error "Failed to get file_id from Telegram response"
        | some fid =>
          .ok { e with
                status := .completed, telegram_progress := 100,
                message_id := some r.message_id, file_id := some fid }
  | _, _ => .error "Bot token or channel ID not configured"

/-- True when any of the four fields required by the Client-API path
(`render-service-chunked.py:294-298`) is missing. -/
def client_missing_fields (c : Credentials) : Bool :=
  c.telegram_session.isNone || c.telegram_api_id.isNone ||
    c.telegram_api_hash.isNone || c.channel_id.isNone

/-- `upload_with_client_api` (`render-service-chunked.py:287-333`), with the
Telethon run abstracted as `resp`: missing credential fields or a raised upload
error propagate; a returned message commits the completed entry, taking
`file_id` directly from the client result — which may be `None`. -/
def upload_with_client_api (e : ProgressEntry) (resp : Except String TgMessage) :
    Except String ProgressEntry :=
  if client_missing_fields e.credentials then .error "Missing required credentials"
  else
    match resp with
    | .error msg => .error msg
    | .ok m =>
      let r := upload_to_telegram_client m
      .ok { e with
            status := .completed, telegram_progress := 100,
            message_id := some r.1, file_id := r.2 }

/-- `upload_to_telegram_background` (`render-service-chunked.py:200-229`):
dispatch on size, and on any raised error commit `status = failed` with the
error recorded (the temp-file cleanup does not touch the entry). -/
def upload_to_telegram_background (e : ProgressEntry)
    (botResp : Except String TgBotResult) (clientResp : Except String TgMessage) :
    ProgressEntry :=
  match (if e.file_size ≤ BOT_API_SIZE_LIMIT then upload_with_bot_api e botResp
         else upload_with_client_api e clientResp) with
  | .ok e' => e'
  | .error msg => { e with status := .failed, error := some msg }

/-- Credentials with every field present. -/
def fullCredsW : Credentials :=
  ⟨some "bt", some 99, some "sess", some 1234, some "hash"⟩

/-- A large-file entry about to be dispatched. -/
def largeEntryW : ProgressEntry :=
  { status := .uploading, file_path := "/tmp/u", file_size := 60 * 1024 * 1024,
    file_name := "f", credentials := fullCredsW, telegram_progress := 0,
    message_id := none, file_id := none, error := none }

/-- C6 counterexample: a Client-API upload whose returned message has no
document/video/audio/photo media commits a session in state `completed` with
`message_id` set but `file_id = None`, violating the claimed invariant that a
Completed session never has a null `file_id`. -/
theorem completed_session_with_null_file_id :
    (upload_to_telegram_background largeEntryW (.error "unused")
        (.ok ⟨5, none, none, none, none⟩)).status = .completed
    ∧ (upload_to_telegram_background largeEntryW (.error "unused")
        (.ok ⟨5, none, none, none, none⟩)).message_id = some 5
    ∧ (upload_to_telegram_background largeEntryW (.error "unused")
        (.ok ⟨5, none, none, none, none⟩)).file_id = none := by
  decide

theorem upload_with_bot_api_ok_shape (e e' : ProgressEntry) (resp : Except String TgBotResult)
    (h : upload_with_bot_api e resp = .ok e') :
    e'.status = .completed ∧ e'.message_id.isSome ∧ e'.file_id.isSome := by
  unfold upload_with_bot_api at h
  repeat' split at h
  any_goals cases h
  all_goals exact ⟨rfl, rfl, rfl⟩

theorem upload_with_client_api_ok_shape (e e' : ProgressEntry)
    (resp : Except String TgMessage) (h : upload_with_client_api e resp = .ok e') :
    e'.status = .completed ∧ e'.message_id.isSome := by
  unfold upload_with_client_api at h
  repeat' split at h
  any_goals cases h
  all_goals exact ⟨rfl, rfl⟩

/-- C6 (amended): starting from an entry whose handles are unset, the
background dispatch maintains: a non-`completed` outcome leaves both handles
unset; a `completed` outcome always carries a `message_id`; and on the Bot-API
path (size within `BOT_API_SIZE_LIMIT`) a `completed` outcome also carries a
`file_id`. (On the Client-API path a completed entry's `file_id` may be null,
as `completed_session_with_null_file_id` shows.) -/
theorem handles_set_iff_completed (e : ProgressEntry)
    (botResp : Except String TgBotResult) (clientResp : Except String TgMessage)
    (hm : e.message_id = none) (hf : e.file_id = none) :
    ((upload_to_telegram_background e botResp clientResp).status ≠ .completed →
        (upload_to_telegram_background e botResp clientResp).message_id = none
        ∧ (upload_to_telegram_background e botResp clientResp).file_id = none)
    ∧ ((upload_to_telegram_background e botResp clientResp).status = .completed →
        (upload_to_telegram_background e botResp clientResp).message_id.isSome)
    ∧ (e.file_size ≤ BOT_API_SIZE_LIMIT →
        (upload_to_telegram_background e botResp clientResp).status = .completed →
        (upload_to_telegram_background e botResp clientResp).file_id.isSome) := by
  by_cases hsize : e.file_size ≤ BOT_API_SIZE_LIMIT
  · cases hatt : upload_with_bot_api e botResp with
    | ok e1 =>
      have hbg : upload_to_telegram_background e botResp clientResp = e1 := by
        simp [upload_to_telegram_background, hsize, hatt]
      obtain ⟨h1, h2, h3⟩ := upload_with_bot_api_ok_shape e e1 botResp hatt
      rw [hbg]
      exact ⟨fun hne => absurd h1 hne, fun _ => h2, fun _ _ => h3⟩
    | error msg =>
      have hbg : upload_to_telegram_background e botResp clientResp
          = { e with status := .failed, error := some msg } := by
        simp [upload_to_telegram_background, hsize, hatt]
      rw [hbg]
      exact ⟨fun _ => ⟨hm, hf⟩, fun hc => absurd hc (by simp),
        fun _ hc => absurd hc (by simp)⟩
  · cases hatt : upload_with_client_api e clientResp with
    | ok e1 =>
      have hbg : upload_to_telegram_background e botResp clientResp = e1 := by
        simp [upload_to_telegram_background, hsize, hatt]
      obtain ⟨h1, h2⟩ := upload_with_client_api_ok_shape e e1 clientResp hatt
      rw [hbg]
      exact ⟨fun hne => absurd h1 hne, fun _ => h2, fun hs _ => absurd hs hsize⟩
    | error msg =>
      have hbg : upload_to_telegram_background e botResp clientResp
          = { e with status := .failed, error := some msg } := by
        simp [upload_to_telegram_background, hsize, hatt]
      rw [hbg]
      exact ⟨fun _ => ⟨hm, hf⟩, fun hc => absurd hc (by simp),
        fun hs _ => absurd hs hsize⟩

/-- A small-file entry about to be dispatched via the Bot API. -/
def smallEntryW : ProgressEntry :=
  { status := .uploading, file_path := "/tmp/s", file_size := 10, file_name := "g",
    credentials := fullCredsW, telegram_progress := 0,
    message_id := none, file_id := none, error := none }

def botRespW : Except String TgBotResult := .ok ⟨true, 8, some "doc", none, none, []⟩

def clientRespW : Except String TgMessage := .error "unused"

/-- Witness for the amended C6 on a concrete small-file Bot-API dispatch. -/
theorem handles_set_iff_completed_witness :
    smallEntryW.message_id = none ∧ smallEntryW.file_id = none
    ∧ ((upload_to_telegram_background smallEntryW botRespW clientRespW).status = .completed →
        (upload_to_telegram_background smallEntryW botRespW clientRespW).message_id.isSome) :=
  ⟨rfl, rfl, (handles_set_iff_completed smallEntryW botRespW clientRespW rfl rfl).2.1⟩

/-! ## Range header parsing and 206 framing (`render-service-chunked.py:444-565`)

Python string operations are modelled on `List Char`: `str.replace` (all,
left-to-right, non-overlapping), `in`, `str.split` on one character, and
`int(...)`. -/

/-- If `ps` is a prefix of `s`, return the remainder. -/
def dropPat : List Char → List Char → Option (List Char)
  | [], s => some s
  | _ :: _, [] => none
  | p :: ps, c :: cs => if c = p then dropPat ps cs else none

theorem dropPat_append (ps rest : List Char) : dropPat ps (ps ++ rest) = some rest := by
  induction ps with
  | nil => rfl
  | cons p ps ih => simp [dropPat, ih]

/-- `str.replace(pat, repl)` for the nonempty pattern `p0 :: ps`, with enough
fuel (the scan consumes at least one character per step). -/
def replaceAllFuel (p0 : Char) (ps repl : List Char) : Nat → List Char → List Char
  | _, [] => []
  | 0, s => s
  | fuel + 1, c :: cs =>
    if c = p0 then
      match dropPat ps cs with
      | some rest => repl ++ replaceAllFuel p0 ps repl fuel rest
      | none => c :: replaceAllFuel p0 ps repl fuel cs
    else c :: replaceAllFuel p0 ps repl fuel cs

/-- `s.replace(p0 :: ps, repl)`. -/
def replaceAll (p0 : Char) (ps repl s : List Char) : List Char :=
  replaceAllFuel p0 ps repl s.length s

theorem replaceAllFuel_of_not_mem (p0 : Char) (ps repl : List Char) (s : List Char)
    (h : p0 ∉ s) : ∀ fuel, replaceAllFuel p0 ps repl fuel s = s := by
  induction s with
  | nil => intro fuel; cases fuel <;> rfl
  | cons c cs ih =>
    intro fuel
    have hc : ¬ c = p0 := fun e => h (by rw [← e]; exact List.mem_cons_self c cs)
    cases fuel with
    | zero => rfl
    | succ f =>
      have := ih (fun hm => h (List.mem_cons_of_mem c hm)) f
      simp [replaceAllFuel, hc, this]

theorem replaceAll_strip (p0 : Char) (ps repl rest : List Char) (h : p0 ∉ rest) :
    replaceAll p0 ps repl (p0 :: (ps ++ rest)) = repl ++ rest := by
  have hlen : (p0 :: (ps ++ rest)).length = (ps.length + rest.length) + 1 := by
    simp
  rw [replaceAll, hlen]
  simp [replaceAllFuel, dropPat_append, replaceAllFuel_of_not_mem p0 ps repl rest h]

/-- The tail of the pattern `bytes=` stripped by the parser. -/
def bytesPatTail : List Char := [ 'y', 't', 'e', 's', '=' ]

/-- `c in s` for a character. -/
def hasChar (c : Char) : List Char → Bool
  | [] => false
  | x :: xs => if x = c then true else hasChar c xs

theorem hasChar_of_not_mem (c : Char) (s : List Char) (h : c ∉ s) : hasChar c s = false := by
  induction s with
  | nil => rfl
  | cons x xs ih =>
    have hx : ¬ x = c := fun e => h (by rw [← e]; exact List.mem_cons_self x xs)
    simp [hasChar, hx, ih (fun hm => h (List.mem_cons_of_mem x hm))]

theorem hasChar_append_cons (c : Char) (xs ys : List Char) :
    hasChar c (xs ++ c :: ys) = true := by
  induction xs with
  | nil => simp [hasChar]
  | cons x t ih =>
    by_cases hx : x = c <;> simp [hasChar, hx, ih]

/-- `s.split(sep)` for a one-character separator. -/
def splitOnChar (sep : Char) : List Char → List (List Char)
  | [] => [[]]
  | c :: cs =>
    if c = sep then [] :: splitOnChar sep cs
    else
      match splitOnChar sep cs with
      | [] => [[c]]
      | h :: t => (c :: h) :: t

theorem splitOnChar_of_not_mem (sep : Char) (s : List Char) (h : sep ∉ s) :
    splitOnChar sep s = [s] := by
  induction s with
  | nil => rfl
  | cons c cs ih =>
    have hc : ¬ c = sep := fun e => h (by rw [← e]; exact List.mem_cons_self c cs)
    simp [splitOnChar, hc, ih (fun hm => h (List.mem_cons_of_mem c hm))]

theorem splitOnChar_append_cons (sep : Char) (ds rest : List Char) (h : sep ∉ ds) :
    splitOnChar sep (ds ++ sep :: rest) = ds :: splitOnChar sep rest := by
  induction ds with
  | nil => simp [splitOnChar]
  | cons c cs ih =>
    have hc : ¬ c = sep := fun e => h (by rw [← e]; exact List.mem_cons_self c cs)
    have htail := ih (fun hm => h (List.mem_cons_of_mem c hm))
    simp [splitOnChar, hc, htail]

/-- Value of a digit string. -/
def digitsVal (s : List Char) : Nat :=
  s.foldl (fun a c => a * 10 + (c.toNat - 48)) 0

/-- Python `int(str)` on the strings the Range grammar can produce: an optional
sign followed by one or more digits; anything else raises (`none`). -/
def pyInt (s : List Char) : Option Int :=
  match s with
  | [] => none
  | c :: rest =>
    if c = '-' then
      if (!rest.isEmpty) && rest.all Char.isDigit then some (-(digitsVal rest : Int))
      else none
    else if c = '+' then
      if (!rest.isEmpty) && rest.all Char.isDigit then some ((digitsVal rest : Int))
      else none
    else if (c :: rest).all Char.isDigit then some ((digitsVal (c :: rest) : Int))
    else none

theorem digit_excludes (c : Char) (h : c.isDigit = true) :
    c ≠ 'b' ∧ c ≠ '-' ∧ c ≠ '+' := by
  refine ⟨fun e => ?_, fun e => ?_, fun e => ?_⟩ <;>
    (subst e; exact absurd h (by decide))

theorem pyInt_digits (s : List Char) (hne : s ≠ []) (hd : s.all Char.isDigit = true) :
    pyInt s = some ((digitsVal s : Int)) := by
  cases s with
  | nil => exact absurd rfl hne
  | cons c rest =>
    have hc : c.isDigit = true := by
      have := List.all_eq_true.mp hd c (List.mem_cons_self c rest)
      simpa using this
    obtain ⟨-, h1, h2⟩ := digit_excludes c hc
    simp [pyInt, h1, h2, hd]

/-- The Range-header parse of `download_file`
(`render-service-chunked.py:448-460`): strip `bytes=`, and if a dash is
present split on it, an empty start meaning `0` and an empty end meaning
`None`; a failed `int(...)` raises (`none`, mapped to a 416). A dash-free
value parses as `(0, None)`. -/
def parse_range_header (header : List Char) : Option (Int × Option Int) :=
  let rangeStr := replaceAll 'b' (bytesPatTail) [] header
  if hasChar '-' rangeStr then
    match splitOnChar '-' rangeStr with
    | p0 :: p1 :: _ =>
      (match (if p0.isEmpty then some 0 else pyInt p0) with
       | none => none
       | some s =>
         if p1.isEmpty then some (s, none)
         else
           match pyInt p1 with
           | none => none
           | some e => some (s, some e))
    | _ => none
  else some (0, none)

/-- The 206 response framing of `stream_file_range`
(`render-service-chunked.py:505-565`). -/
structure RangeResponse where
  status : Nat
  contentRangeStart : Int
  contentRangeEnd : Int
  contentRangeTotal : Nat
  contentLength : Int
deriving DecidableEq

/-- Header computation of `stream_file_range` (`render-service-chunked.py:507-565`):
`actual_end = min(range_end if range_end is not None else file_size - 1,
file_size - 1)`, `bytes_to_send = actual_end - range_start + 1`, status 206,
`Content-Range: bytes start-actual_end/file_size`. -/
def stream_file_range_headers (range_start : Int) (range_end : Option Int)
    (file_size : Nat) : RangeResponse :=
  let actual_end : Int :=
    min (match range_end with
         | some e => e
         | none => (file_size : Int) - 1) ((file_size : Int) - 1)
  { status := 206, contentRangeStart := range_start, contentRangeEnd := actual_end,
    contentRangeTotal := file_size, contentLength := actual_end - range_start + 1 }

/-- Range-handling outcome of `download_file` (`render-service-chunked.py:444-476`). -/
inductive DownloadOutcome where
  /-- 416 `Invalid Range header`; raised before any streaming session is opened. -/
  | invalidRange : DownloadOutcome
  /-- `stream_file_range` is called: a remote streaming session is opened. -/
  | streamRange (start : Int) (endOpt : Option Int) : DownloadOutcome
  /-- `stream_full_file` is called (no Range header). -/
  | streamFull : DownloadOutcome
deriving DecidableEq

/-- The decision made by `download_file` on the Range header
(`render-service-chunked.py:444-476`). -/
def download_range_decision (rangeHeader : Option (List Char)) : DownloadOutcome :=
  match rangeHeader with
  | none => .streamFull
  | some h =>
    match parse_range_header h with
    | none => .invalidRange
    | some (s, e) => .streamRange s e

/-- Modelled from the claim's wording for C9: a Range value is syntactically
valid when it has the exact form `bytes=<start>-<end>` with numeric, possibly
empty, start and end. -/
def specValidRange (h : List Char) : Bool :=
  match dropPat (String.toList "bytes=") h with
  | none => false
  | some rest =>
    match splitOnChar '-' rest with
    | [ds, de] => ds.all Char.isDigit && de.all Char.isDigit
    | _ => false

theorem digits_no_b (ds : List Char) (hd : ds.all Char.isDigit = true) : 'b' ∉ ds := by
  intro hm
  have h := List.all_eq_true.mp hd _ hm
  exact absurd h (by decide)

theorem digits_no_dash (ds : List Char) (hd : ds.all Char.isDigit = true) : '-' ∉ ds := by
  intro hm
  have h := List.all_eq_true.mp hd _ hm
  exact absurd h (by decide)

/-- `int(parts[0]) if parts[0] else 0` (`render-service-chunked.py:453`). -/
def rangeStartOf (ds : List Char) : Int :=
  if ds.isEmpty then 0 else (digitsVal ds : Int)

/-- `int(parts[1]) if parts[1] else None` (`render-service-chunked.py:454`). -/
def rangeEndOf (de : List Char) : Option Int :=
  if de.isEmpty then none else some ((digitsVal de : Int))

theorem parse_range_header_valid (ds de : List Char)
    (hds : ds.all Char.isDigit = true) (hde : de.all Char.isDigit = true) :
    parse_range_header (String.toList "bytes=" ++ ds ++ '-' :: de)
      = some (rangeStartOf ds, rangeEndOf de) := by
  have hb_tail : 'b' ∉ ds ++ '-' :: de := by
    intro hm
    rcases List.mem_append.mp hm with h | h
    · exact digits_no_b ds hds h
    · rcases List.mem_cons.mp h with h | h
      · exact absurd h (by decide)
      · exact digits_no_b de hde h
  have hshape : String.toList "bytes=" ++ ds ++ '-' :: de
      = 'b' :: (bytesPatTail ++ (ds ++ '-' :: de)) := by
    simp [bytesPatTail]
  have hstrip : replaceAll 'b' (bytesPatTail) []
      (String.toList "bytes=" ++ ds ++ '-' :: de) = ds ++ '-' :: de := by
    rw [hshape, replaceAll_strip 'b' (bytesPatTail) [] (ds ++ '-' :: de) hb_tail]
    simp
  have hsplit : splitOnChar '-' (ds ++ '-' :: de) = [ds, de] := by
    rw [splitOnChar_append_cons '-' ds de (digits_no_dash ds hds),
      splitOnChar_of_not_mem '-' de (digits_no_dash de hde)]
  simp only [parse_range_header, hstrip, hasChar_append_cons '-' ds de, if_true, hsplit]
  by_cases hds0 : ds = []
  · subst hds0
    by_cases hde0 : de = []
    · subst hde0
      simp [rangeStartOf, rangeEndOf]
    · have hdeE : de.isEmpty = false := by
        cases de with
        | nil => exact absurd rfl hde0
        | cons c cs => rfl
      simp [rangeStartOf, rangeEndOf, hdeE, pyInt_digits de hde0 hde]
  · have hdsE : ds.isEmpty = false := by
      cases ds with
      | nil => exact absurd rfl hds0
      | cons c cs => rfl
    by_cases hde0 : de = []
    · subst hde0
      simp [rangeStartOf, rangeEndOf, hdsE, pyInt_digits ds hds0 hds]
    · have hdeE : de.isEmpty = false := by
        cases de with
        | nil => exact absurd rfl hde0
        | cons c cs => rfl
      simp [rangeStartOf, rangeEndOf, hdsE, hdeE,
        pyInt_digits ds hds0 hds, pyInt_digits de hde0 hde]

/-- C2: for every syntactically valid `bytes=<start>-[<end>]` header (numeric,
possibly empty, start and end), the parser yields start (default 0) and
optional end, and the framing clamps the end to `T-1` when missing or
exceeding, answers status 206 with `Content-Range: bytes start-end/T`, and
`Content-Length = end - start + 1`. -/
theorem range_request_framing (ds de : List Char) (T : Nat)
    (hds : ds.all Char.isDigit = true) (hde : de.all Char.isDigit = true) :
    parse_range_header (String.toList "bytes=" ++ ds ++ '-' :: de)
      = some (rangeStartOf ds, rangeEndOf de)
    ∧ (stream_file_range_headers (rangeStartOf ds) (rangeEndOf de) T).status = 206
    ∧ (stream_file_range_headers (rangeStartOf ds) (rangeEndOf de) T).contentRangeStart
        = rangeStartOf ds
    ∧ (stream_file_range_headers (rangeStartOf ds) (rangeEndOf de) T).contentRangeEnd
        = min ((rangeEndOf de).getD ((T : Int) - 1)) ((T : Int) - 1)
    ∧ (stream_file_range_headers (rangeStartOf ds) (rangeEndOf de) T).contentRangeTotal = T
    ∧ (stream_file_range_headers (rangeStartOf ds) (rangeEndOf de) T).contentLength
        = (stream_file_range_headers (rangeStartOf ds) (rangeEndOf de) T).contentRangeEnd
          - rangeStartOf ds + 1 := by
  refine ⟨parse_range_header_valid ds de hds hde, rfl, rfl, ?_, rfl, rfl⟩
  cases h : rangeEndOf de <;> simp [stream_file_range_headers, h]

/-- Witness for C2 at the spec's example: `bytes=0-1048575` on a 10 MiB object
gives 206, `Content-Range: bytes 0-1048575/10485760`, `Content-Length:
1048576`. -/
theorem range_request_framing_witness :
    String.toList "bytes=0-1048575"
      = String.toList "bytes=" ++ String.toList "0" ++ '-' :: String.toList "1048575"
    ∧ parse_range_header (String.toList "bytes=" ++ String.toList "0"
        ++ '-' :: String.toList "1048575")
      = some (rangeStartOf (String.toList "0"), rangeEndOf (String.toList "1048575"))
    ∧ stream_file_range_headers (rangeStartOf (String.toList "0"))
        (rangeEndOf (String.toList "1048575")) 10485760
      = ⟨206, 0, 1048575, 10485760, 1048576⟩ :=
  ⟨by decide,
    (range_request_framing (String.toList "0") (String.toList "1048575") 10485760
      (by decide) (by decide)).1,
    by decide⟩

/-- C9 counterexample: `bytes=abc` is not of the form `bytes=<start>-[<end>]`
with numeric parts, yet the code does not raise a 416 — having no dash, it is
parsed as the full range `(0, None)` and a remote streaming session is opened
(`stream_file_range` is called). -/
theorem malformed_range_not_rejected :
    specValidRange (String.toList "bytes=abc") = false
    ∧ download_range_decision (some (String.toList "bytes=abc"))
        = .streamRange 0 none
    ∧ DownloadOutcome.streamRange 0 none ≠ .invalidRange := by
  refine ⟨by decide, by decide, by decide⟩

theorem splitOnChar_ne_nil (sep : Char) (s : List Char) :
    ∃ a t, splitOnChar sep s = a :: t := by
  cases s with
  | nil => exact ⟨[], [], rfl⟩
  | cons c cs =>
    by_cases hc : c = sep
    · exact ⟨[], splitOnChar sep cs, by simp [splitOnChar, hc]⟩
    · cases hsp : splitOnChar sep cs with
      | nil => exact ⟨[c], [], by simp [splitOnChar, hc, hsp]⟩
      | cons a t => exact ⟨c :: a, t, by simp [splitOnChar, hc, hsp]⟩

theorem splitOnChar_two_of_hasChar (sep : Char) (s : List Char)
    (h : hasChar sep s = true) : ∃ p0 p1 rest, splitOnChar sep s = p0 :: p1 :: rest := by
  induction s with
  | nil => simp [hasChar] at h
  | cons c cs ih =>
    by_cases hc : c = sep
    · obtain ⟨a, t, ht⟩ := splitOnChar_ne_nil sep cs
      exact ⟨[], a, t, by simp [splitOnChar, hc, ht]⟩
    · have hcs : hasChar sep cs = true := by
        simpa [hasChar, hc] using h
      obtain ⟨p0, p1, rest, hr⟩ := ih hcs
      exact ⟨c :: p0, p1, rest, by simp [splitOnChar, hc, hr]⟩

/-- C9 (amended): the 416 outcome (raised before any remote session is opened)
occurs exactly when the stripped Range value contains a dash and a nonempty
start or end fails `int(...)` conversion; a dash-free value — however
malformed — is instead accepted as a full-range request `(start 0, open end)`
and a streaming session is opened. -/
theorem range_416_requires_dash (h : List Char) :
    (download_range_decision (some h) = .invalidRange →
        hasChar '-' (replaceAll 'b' (bytesPatTail) [] h) = true)
    ∧ (hasChar '-' (replaceAll 'b' (bytesPatTail) [] h) = false →
        download_range_decision (some h) = .streamRange 0 none)
    ∧ (download_range_decision (some h) = .invalidRange ↔
        hasChar '-' (replaceAll 'b' (bytesPatTail) [] h) = true
        ∧ ∃ p0 p1 rest,
            splitOnChar '-' (replaceAll 'b' (bytesPatTail) [] h) = p0 :: p1 :: rest
            ∧ ((p0.isEmpty = false ∧ pyInt p0 = none)
               ∨ ((if p0.isEmpty then some 0 else pyInt p0) ≠ (none : Option Int)
                  ∧ p1.isEmpty = false ∧ pyInt p1 = none))) := by
  by_cases hc : hasChar '-' (replaceAll 'b' (bytesPatTail) [] h) = true
  case neg =>
    have hf : hasChar '-' (replaceAll 'b' (bytesPatTail) [] h) = false := by
      simpa using hc
    have hdec : download_range_decision (some h) = .streamRange 0 none := by
      simp [download_range_decision, parse_range_header, hf]
    refine ⟨fun hd => absurd hdec (by rw [hd]; simp), fun _ => hdec, ?_, ?_⟩
    · intro hd
      rw [hdec] at hd
      exact absurd hd (by simp)
    · rintro ⟨hct, -⟩
      exact absurd hct hc
  case pos =>
    obtain ⟨p0, p1, rest, hsplit⟩ :=
      splitOnChar_two_of_hasChar '-' (replaceAll 'b' (bytesPatTail) [] h) hc
    have hparse : parse_range_header h
        = (match (if p0.isEmpty then (some 0 : Option Int) else pyInt p0) with
           | none => none
           | some s =>
             if p1.isEmpty then some (s, none)
             else
               match pyInt p1 with
               | none => none
               | some e => some (s, some e)) := by
      simp only [parse_range_header, hc, if_true, hsplit]
    cases hstart : (if p0.isEmpty then (some 0 : Option Int) else pyInt p0) with
    | none =>
      have hp0 : p0.isEmpty = false := by
        by_cases hp : p0.isEmpty = true
        · rw [if_pos hp] at hstart
          cases hstart
        · simpa using hp
      have hpy : pyInt p0 = none := by
        rw [if_neg (by simp [hp0])] at hstart
        exact hstart
      have hdec : download_range_decision (some h) = .invalidRange := by
        simp only [download_range_decision, hparse, hstart]
      exact ⟨fun _ => hc, fun hf => absurd hc (by simp [hf]),
        fun _ => ⟨hc, p0, p1, rest, hsplit, Or.inl ⟨hp0, hpy⟩⟩,
        fun _ => hdec⟩
    | some s =>
      by_cases hp1 : p1.isEmpty = true
      · have hdec : download_range_decision (some h) = .streamRange s none := by
          simp only [download_range_decision, hparse, hstart]
          rw [if_pos hp1]
        refine ⟨fun _ => hc, fun hf => absurd hc (by simp [hf]), ?_, ?_⟩
        · intro hd
          rw [hdec] at hd
          exact absurd hd (by simp)
        · rintro ⟨-, q0, q1, qrest, hq, hdisj⟩
          exfalso
          rw [hsplit] at hq
          injection hq with h1 h2
          injection h2 with h2 h3
          subst h1
          subst h2
          rcases hdisj with ⟨he0, hn0⟩ | ⟨-, hp1f, -⟩
          · rw [if_neg (by simp [he0]), hn0] at hstart
            cases hstart
          · rw [hp1] at hp1f
            cases hp1f
      · have hp1f : p1.isEmpty = false := by simpa using hp1
        cases hend : pyInt p1 with
        | none =>
          have hdec : download_range_decision (some h) = .invalidRange := by
            simp only [download_range_decision, hparse, hstart]
            rw [if_neg hp1, hend]
          exact ⟨fun _ => hc, fun hf => absurd hc (by simp [hf]),
            fun _ => ⟨hc, p0, p1, rest, hsplit,
              Or.inr ⟨by rw [hstart]; simp, hp1f, hend⟩⟩,
            fun _ => hdec⟩
        | some e =>
          have hdec : download_range_decision (some h) = .streamRange s (some e) := by
            simp only [download_range_decision, hparse, hstart]
            rw [if_neg hp1, hend]
          refine ⟨fun _ => hc, fun hf => absurd hc (by simp [hf]), ?_, ?_⟩
          · intro hd
            rw [hdec] at hd
            exact absurd hd (by simp)
          · rintro ⟨-, q0, q1, qrest, hq, hdisj⟩
            exfalso
            rw [hsplit] at hq
            injection hq with h1 h2
            injection h2 with h2 h3
            subst h1
            subst h2
            rcases hdisj with ⟨he0, hn0⟩ | ⟨-, -, hn1⟩
            · rw [if_neg (by simp [he0]), hn0] at hstart
              cases hstart
            · rw [hend] at hn1
              cases hn1

/-- Witness for the amended C9: `bytes=x-y` has a dash and `int("x")` fails,
so the characterization yields the 416 outcome; the dash-free `abc` instead
streams the full range. -/
theorem range_416_requires_dash_witness :
    download_range_decision (some (String.toList "bytes=x-y")) = .invalidRange
    ∧ hasChar '-' (replaceAll 'b' (bytesPatTail) [] (String.toList "bytes=x-y")) = true
    ∧ hasChar '-' (replaceAll 'b' (bytesPatTail) [] (String.toList "abc")) = false
    ∧ download_range_decision (some (String.toList "abc")) = .streamRange 0 none :=
  ⟨(range_416_requires_dash (String.toList "bytes=x-y")).2.2.mpr
      ⟨by decide, String.toList "x", String.toList "y", [], by decide,
        Or.inl ⟨by decide, by decide⟩⟩,
    by decide,
    by decide,
    (range_416_requires_dash (String.toList "abc")).2.1 (by decide)⟩

/-! ## Download streaming teardown (`render-service-chunked.py:487-651`)

The async generators are embedded as trace builders: a run maps the sequence
of remote blocks, an optional iterator error after them, and the per-block
disconnect poll to the list of boundary events (yields and session closes)
plus the way the execution exited. -/

/-- Events observable at the streaming boundary. -/
inductive StreamEv where
  | yieldChunk (b : Bytes) : StreamEv
  | closeSession : StreamEv
deriving DecidableEq

/-- How an execution of the generator ended: returned, broke out on consumer
disconnect, or re-raised an exception past the streaming boundary. -/
inductive ExitKind where
  | completedNormally : ExitKind
  | consumerDisconnected : ExitKind
  | errored (msg : String) : ExitKind
deriving DecidableEq

def isClose : StreamEv → Bool
  | .closeSession => true
  | _ => false

def countClose (evs : List StreamEv) : Nat := evs.countP isClose

/-- The `async for` body shared by both generators
(`render-service-chunked.py:521-536` and `615-625`): before yielding block
`k`, `request.is_disconnected()` is polled; a true poll breaks the loop.
Returns the yielded events and whether the loop broke on a disconnect. -/
def streamLoop (disc : Nat → Bool) : List Bytes → Nat → List StreamEv × Bool
  | [], _ => ([], false)
  | b :: bs, k =>
    if disc k then ([], true)
    else
      let r := streamLoop disc bs (k + 1)
      (StreamEv.yieldChunk b :: r.1, r.2)

/-- One run of `generate_chunks` in `stream_file_range`
(`render-service-chunked.py:514-547`): the iterator yields `blocks` then
optionally raises `tailErr`; the `finally` closes the session exactly once on
the way out; a raised error propagates past the boundary after the close,
while a disconnect break is a normal return. -/
def stream_range_generator (blocks : List Bytes) (tailErr : Option String)
    (disc : Nat → Bool) : List StreamEv × ExitKind :=
  let r := streamLoop disc blocks 0
  if r.2 then (r.1 ++ [StreamEv.closeSession], ExitKind.consumerDisconnected)
  else
    match tailErr with
    | some msg => (r.1 ++ [StreamEv.closeSession], ExitKind.errored msg)
    | none => (r.1 ++ [StreamEv.closeSession], ExitKind.completedNormally)

/-- One full run of `stream_file_range` (`render-service-chunked.py:487-570`):
a pre-stream failure (connect, entity or message lookup) hits the `except`
branch, which closes the one session and re-raises; otherwise the generator
runs on that same session. -/
def stream_file_range_run (setup : Except String Unit) (blocks : List Bytes)
    (tailErr : Option String) (disc : Nat → Bool) : List StreamEv × ExitKind :=
  match setup with
  | .error msg => ([StreamEv.closeSession], ExitKind.errored msg)
  | .ok _ => stream_range_generator blocks tailErr disc

/-- One run of the `generate_chunks` of `stream_full_file`
(`render-service-chunked.py:593-636`): the generator owns its client; setup
failures inside its `try` raise after the `finally` close, so the run has the
same observable structure. -/
def stream_full_generator (setup : Except String Unit) (blocks : List Bytes)
    (tailErr : Option String) (disc : Nat → Bool) : List StreamEv × ExitKind :=
  match setup with
  | .error msg => ([StreamEv.closeSession], ExitKind.errored msg)
  | .ok _ => stream_range_generator blocks tailErr disc

theorem countClose_streamLoop (disc : Nat → Bool) (bs : List Bytes) (k : Nat) :
    countClose (streamLoop disc bs k).1 = 0 := by
  induction bs generalizing k with
  | nil => rfl
  | cons b t ih =>
    by_cases hd : disc k
    · simp [streamLoop, hd, countClose, isClose, List.countP_cons]
    · simp [streamLoop, hd, countClose, isClose, List.countP_cons]
      simpa [countClose] using ih (k + 1)

theorem countClose_range_generator (blocks : List Bytes) (tailErr : Option String)
    (disc : Nat → Bool) :
    countClose (stream_range_generator blocks tailErr disc).1 = 1 := by
  have h0 := countClose_streamLoop disc blocks 0
  unfold stream_range_generator
  by_cases h : (streamLoop disc blocks 0).2 <;> cases tailErr <;>
    simp [h, countClose, isClose, List.countP_append, List.countP_cons] <;>
    simpa [countClose] using h0

theorem range_generator_disconnect_clean (blocks : List Bytes) (tailErr : Option String)
    (disc : Nat → Bool) (h : (streamLoop disc blocks 0).2 = true) :
    (stream_range_generator blocks tailErr disc).2 = .consumerDisconnected := by
  unfold stream_range_generator
  simp [h]

/-- C7: every execution of a download stream closes its remote session exactly
once, on every exit path — setup failure, normal completion, consumer
disconnect detected at a block boundary, and mid-stream exception — and a
disconnect detected at a block boundary exits as a clean disconnect, with no
exception surfaced past the streaming boundary; this holds for both
`stream_file_range` and the `stream_full_file` generator. -/
theorem stream_closes_session_exactly_once (setup : Except String Unit)
    (blocks : List Bytes) (tailErr : Option String) (disc : Nat → Bool) :
    countClose (stream_file_range_run setup blocks tailErr disc).1 = 1
    ∧ (setup = .ok () → (streamLoop disc blocks 0).2 = true →
        (stream_file_range_run setup blocks tailErr disc).2 = .consumerDisconnected)
    ∧ countClose (stream_full_generator setup blocks tailErr disc).1 = 1
    ∧ (setup = .ok () → (streamLoop disc blocks 0).2 = true →
        (stream_full_generator setup blocks tailErr disc).2 = .consumerDisconnected) := by
  refine ⟨?_, ?_, ?_, ?_⟩
  · cases setup with
    | error msg => rfl
    | ok u => exact countClose_range_generator blocks tailErr disc
  · intro h1 h2
    subst h1
    exact range_generator_disconnect_clean blocks tailErr disc h2
  · cases setup with
    | error msg => rfl
    | ok u => exact countClose_range_generator blocks tailErr disc
  · intro h1 h2
    subst h1
    exact range_generator_disconnect_clean blocks tailErr disc h2

/-- Witness for C7: three blocks, the consumer disconnecting at the second
block boundary, with a pending iterator error that is never reached — exactly
one close, clean disconnect exit. -/
theorem stream_closes_session_exactly_once_witness :
    countClose (stream_file_range_run (.ok ()) [[1], [2], [3]] (some "io")
        (fun k => decide (k = 1))).1 = 1
    ∧ (streamLoop (fun k => decide (k = 1)) [[1], [2], [3]] 0).2 = true
    ∧ (stream_file_range_run (.ok ()) [[1], [2], [3]] (some "io")
        (fun k => decide (k = 1))).2 = .consumerDisconnected :=
  ⟨(stream_closes_session_exactly_once (.ok ()) [[1], [2], [3]] (some "io")
      (fun k => decide (k = 1))).1,
    by decide,
    (stream_closes_session_exactly_once (.ok ()) [[1], [2], [3]] (some "io")
      (fun k => decide (k = 1))).2.1 rfl (by decide)⟩

end TeleDrive
